import Mathlib

/-!
# Verification of the slide-to-video export pipeline

Shallow embedding of `src/lib/slides.ts` (slide model, easing curve, greedy
text wrap, frame compositor, image prefetch, and export orchestration), with
theorems checking the natural-language specification against it.

Strings manipulated by the text engine are modelled as lists of characters
(`Str`), numbers as rationals, canvas drawing as an explicit list of drawing
commands, and the host capabilities (media recorder availability, codec
support, image decoding, text measurement) as explicit parameters.
-/

/-- JavaScript strings, modelled as lists of characters. -/
abbrev Str := List Char

/-- Vertical anchor for the text block of a slide. -/
inductive SlideAlignment where
  | center
  | top
  | bottom
deriving DecidableEq, Repr

/-- One scene specification, from the `Slide` type of the source. -/
structure Slide where
  id : String
  title : Str
  subtitle : Str
  backgroundColor : String
  textColor : String
  accentColor : String
  duration : ℚ
  imageDataUrl : Option String
  alignment : SlideAlignment
deriving DecidableEq, Repr

/-- A decoded bitmap handle (`HTMLImageElement`): only its dimensions matter
to the compositor. -/
structure ImageEl where
  width : ℚ
  height : ℚ
deriving DecidableEq, Repr

/-- The fixed frame rate `FPS = 30` of the export pipeline. -/
def FPS : ℚ := 30

/-- The easing curve: `t < 0.5 ? 4*t*t*t : 1 - Math.pow(-2*t+2, 3)/2`. -/
def easeInOutCubic (t : ℚ) : ℚ :=
  if t < 1/2 then 4 * t * t * t else 1 - (-2 * t + 2)^3 / 2

/-- Per-slide frame count from the export loop:
`Math.max(1, Math.round(slide.duration * FPS))`. Mathlib's `round` on `ℚ`
is `⌊x + 1/2⌋`, which agrees with JavaScript's `Math.round`. -/
def frameCount (duration : ℚ) : ℕ := (max 1 (round (duration * FPS))).toNat

/-- Per-frame normalized progress from the export loop:
`frameCount === 1 ? 1 : frame / (frameCount - 1)`. -/
def slideProgress (fc : ℕ) (frame : ℕ) : ℚ :=
  if fc = 1 then 1 else (frame : ℚ) / ((fc : ℚ) - 1)

/-- Every slide yields at least one frame. -/
lemma one_le_frameCount (d : ℚ) : 1 ≤ frameCount d := by
  unfold frameCount
  have h : (1 : ℤ) ≤ max 1 (round (d * FPS)) := le_max_left _ _
  exact Int.toNat_le_toNat h

/-- C6: `easeInOutCubic` fixes 0, 1 and 1/2, and is monotonically
non-decreasing on `[0, 1]`. -/
theorem c6_theorem :
    easeInOutCubic 0 = 0 ∧ easeInOutCubic 1 = 1 ∧
    easeInOutCubic (1/2) = 1/2 ∧
    ∀ a b : ℚ, 0 ≤ a → a ≤ b → b ≤ 1 → easeInOutCubic a ≤ easeInOutCubic b := by
  refine ⟨by norm_num [easeInOutCubic], by norm_num [easeInOutCubic],
    by norm_num [easeInOutCubic], ?_⟩
  intro a b ha hab hb1
  unfold easeInOutCubic
  split_ifs with h1 h2 h2
  · have h3 : (0 : ℚ) ≤ a*a + a*b + b*b := by nlinarith [sq_nonneg (a+b), sq_nonneg (a-b)]
    nlinarith [mul_nonneg (sub_nonneg.mpr hab) h3]
  · have hb : (1:ℚ)/2 ≤ b := le_of_not_lt h2
    have ha2 : a ≤ 1/2 := le_of_lt h1
    have e1 : a^3 ≤ ((1:ℚ)/2)^3 := pow_le_pow_left₀ ha ha2 3
    have h4 : (0:ℚ) ≤ -2*b+2 := by linarith
    have h6 : -2*b+2 ≤ (1:ℚ) := by linarith
    have e2 : (-2*b+2)^3 ≤ (1:ℚ) := pow_le_one₀ h4 h6
    nlinarith [e1, e2]
  · exact absurd (lt_of_le_of_lt hab h2) h1
  · have h4 : (0:ℚ) ≤ -2*b+2 := by linarith
    have h5 : -2*b+2 ≤ -2*a+2 := by linarith
    have e3 : (-2*b+2)^3 ≤ (-2*a+2)^3 := pow_le_pow_left₀ h4 h5 3
    linarith

/-- Witness for `c6_theorem` at concrete inputs. -/
theorem c6_witness :
    (0 : ℚ) ≤ 1/4 ∧ easeInOutCubic (1/4) ≤ easeInOutCubic (3/4) :=
  ⟨by norm_num, c6_theorem.2.2.2 (1/4) (3/4) (by norm_num) (by norm_num) (by norm_num)⟩

/-- C2: the export loop's frame count is `max(1, round(duration * 30))` and
per-frame progress is `frameCount == 1 ? 1 : f/(frameCount-1)`; in particular
a 3-second slide yields 90 frames and a 0.1-second slide yields 3. -/
theorem c2_theorem :
    (∀ d : ℚ, (frameCount d : ℤ) = max 1 (round (d * 30))) ∧
    (∀ fc f : ℕ, slideProgress fc f = if fc = 1 then 1 else (f : ℚ) / ((fc : ℚ) - 1)) ∧
    frameCount 3 = 90 ∧ frameCount (1/10) = 3 := by
  refine ⟨?_, fun fc f => rfl,
    by norm_num [frameCount, FPS, round_eq]; rfl,
    by norm_num [frameCount, FPS, round_eq]; rfl⟩
  intro d
  unfold frameCount FPS
  rw [Int.toNat_of_nonneg (le_trans zero_le_one (le_max_left _ _))]

/-- The whitespace characters removed by JavaScript's `trim`/`trimEnd`
(restricted to the ASCII range). -/
def isJsWhitespace (c : Char) : Bool :=
  c = ' ' || c = '\t' || c = '\n' || c = '\r' || c = '\x0b' || c = '\x0c'

/-- JavaScript `String.prototype.trimEnd`. -/
def jsTrimEnd (s : Str) : Str := (s.reverse.dropWhile isJsWhitespace).reverse

/-- JavaScript `String.prototype.trimStart`. -/
def jsTrimStart (s : Str) : Str := s.dropWhile isJsWhitespace

/-- JavaScript `String.prototype.trim`. -/
def jsTrim (s : Str) : Str := jsTrimStart (jsTrimEnd s)

/-- Helper for `jsSplitSpace`: accumulates the current chunk in reverse. -/
def splitSpaceAux : Str → Str → List Str
  | [], acc => [acc.reverse]
  | c :: cs, acc =>
    if c = ' ' then acc.reverse :: splitSpaceAux cs [] else splitSpaceAux cs (c :: acc)

/-- JavaScript `text.split(" ")`: split on every single space; the empty
string yields `[""]`. -/
def jsSplitSpace (s : Str) : List Str := splitSpaceAux s []

/-- The loop of `renderWrappedText` (source lines 76-97): greedy word wrap.
Returns the list of committed `fillText` calls `(line, x, y)` and the final
vertical cursor. `measure` is the text-measurement capability
(`context.measureText`). -/
def wrapLoop (measure : Str → ℚ) (x maxWidth lineHeight : ℚ) :
    List Str → Str → ℚ → List (Str × ℚ × ℚ) × ℚ
  | [], line, currentY =>
    if jsTrim line ≠ [] then ([(jsTrimEnd line, x, currentY)], currentY + lineHeight)
    else ([], currentY + lineHeight)
  | w :: ws, line, currentY =>
    let testLine := line ++ w ++ [' ']
    if measure testLine > maxWidth ∧ line ≠ [] then
      let r := wrapLoop measure x maxWidth lineHeight ws (w ++ [' ']) (currentY + lineHeight)
      ((jsTrimEnd line, x, currentY) :: r.1, r.2)
    else
      wrapLoop measure x maxWidth lineHeight ws testLine currentY

/-- `renderWrappedText` from the source: split on spaces, run the greedy
wrap loop starting from an empty line, and return the committed lines plus
the advanced cursor. -/
def renderWrappedText (measure : Str → ℚ) (text : Str) (x y maxWidth lineHeight : ℚ) :
    List (Str × ℚ × ℚ) × ℚ :=
  wrapLoop measure x maxWidth lineHeight (jsSplitSpace text) [] y

/-- One committed line per word, each one `lineHeight` below the previous. -/
def expectedLines (x lineHeight : ℚ) : List Str → ℚ → List (Str × ℚ × ℚ)
  | [], _ => []
  | w :: ws, y => (w, x, y) :: expectedLines x lineHeight ws (y + lineHeight)

lemma splitSpaceAux_ne_nil : ∀ (s acc : Str), splitSpaceAux s acc ≠ [] := by
  intro s
  induction s with
  | nil => intro acc; simp [splitSpaceAux]
  | cons c cs ih =>
    intro acc
    unfold splitSpaceAux
    split_ifs with h
    · simp
    · exact ih _

lemma jsSplitSpace_ne_nil (s : Str) : jsSplitSpace s ≠ [] := splitSpaceAux_ne_nil s []

lemma jsTrimEnd_word_space (v : Str) (hv : ∀ c ∈ v, isJsWhitespace c = false) :
    jsTrimEnd (v ++ [' ']) = v := by
  unfold jsTrimEnd
  rw [List.reverse_append]
  simp only [List.reverse_cons, List.reverse_nil, List.nil_append, List.singleton_append]
  rw [List.dropWhile_cons]
  simp only [show isJsWhitespace ' ' = true from rfl, if_true]
  cases hr : v.reverse with
  | nil =>
    have : v = [] := by simpa using congrArg List.reverse hr
    simp [this]
  | cons c rest =>
    have hc : c ∈ v := by
      rw [← List.mem_reverse, hr]; exact List.mem_cons_self _ _
    rw [List.dropWhile_cons, hv c hc]
    simp [← hr]

lemma jsTrim_word_space_ne (v : Str) (hne : v ≠ [])
    (hv : ∀ c ∈ v, isJsWhitespace c = false) : jsTrim (v ++ [' ']) ≠ [] := by
  unfold jsTrim jsTrimStart
  rw [jsTrimEnd_word_space v hv]
  cases v with
  | nil => exact absurd rfl hne
  | cons c cs =>
    rw [List.dropWhile_cons, hv c (List.mem_cons_self _ _)]
    simp

/-- Key invariant of the wrap loop on all-wide word lists: with the pending
line holding one wide word, every remaining wide word is committed on its own
line. -/
lemma wrapLoop_wide (k mw x lh : ℚ) (hk : 0 ≤ k) :
    ∀ (ws : List Str) (v : Str) (cy : ℚ),
      (v ≠ [] ∧ (∀ c ∈ v, isJsWhitespace c = false) ∧ mw / 2 < k * (v.length : ℚ)) →
      (∀ w ∈ ws, w ≠ [] ∧ (∀ c ∈ w, isJsWhitespace c = false) ∧ mw / 2 < k * (w.length : ℚ)) →
      wrapLoop (fun s => k * (s.length : ℚ)) x mw lh ws (v ++ [' ']) cy =
        (expectedLines x lh (v :: ws) cy, cy + ((ws.length : ℚ) + 1) * lh) := by
  intro ws
  induction ws with
  | nil =>
    intro v cy hv _
    obtain ⟨hne, hchars, hwide⟩ := hv
    unfold wrapLoop
    rw [if_pos (jsTrim_word_space_ne v hne hchars), jsTrimEnd_word_space v hchars]
    simp [expectedLines]
  | cons w ws ih =>
    intro v cy hv hws
    obtain ⟨hne, hchars, hwide⟩ := hv
    obtain ⟨hwne, hwchars, hwwide⟩ := hws w (List.mem_cons_self _ _)
    unfold wrapLoop
    simp only []
    have hcond : k * (((((v ++ [' ']) ++ w) ++ [' ']).length : ℕ) : ℚ) > mw ∧ v ++ [' '] ≠ [] := by
      constructor
      · have hlen : (((((v ++ [' ']) ++ w) ++ [' ']).length : ℕ) : ℚ)
            = (v.length : ℚ) + (w.length : ℚ) + 2 := by
          push_cast [List.length_append, List.length_singleton]
          ring
        rw [hlen]
        nlinarith [hwide, hwwide, hk]
      · simp
    rw [if_pos hcond]
    rw [ih w (cy + lh) ⟨hwne, hwchars, hwwide⟩
      (fun u hu => hws u (List.mem_cons_of_mem _ hu))]
    rw [jsTrimEnd_word_space v hchars]
    simp only [expectedLines, List.length_cons, Prod.mk.injEq]
    refine ⟨trivial, ?_⟩
    push_cast
    ring

/-- C8: the text wrapper is a greedy word wrap. With a measurer proportional
to character count, a string whose space-separated words are all wider than
half the maximum width is committed one word per line, one `lineHeight`
apart; the empty string commits no lines and returns the starting cursor
advanced by exactly one `lineHeight`. -/
theorem c8_theorem :
    (∀ (k mw x y lh : ℚ) (text : Str), 0 ≤ k →
      (∀ w ∈ jsSplitSpace text,
        w ≠ [] ∧ (∀ c ∈ w, isJsWhitespace c = false) ∧ mw / 2 < k * (w.length : ℚ)) →
      renderWrappedText (fun s => k * (s.length : ℚ)) text x y mw lh =
        (expectedLines x lh (jsSplitSpace text) y,
         y + ((jsSplitSpace text).length : ℚ) * lh)) ∧
    (∀ (measure : Str → ℚ) (x y mw lh : ℚ),
      renderWrappedText measure [] x y mw lh = ([], y + lh)) := by
  constructor
  · intro k mw x y lh text hk hall
    unfold renderWrappedText
    rcases hsp : jsSplitSpace text with _ | ⟨w, ws⟩
    · exact absurd hsp (jsSplitSpace_ne_nil text)
    rw [hsp] at hall
    obtain ⟨hwne, hwchars, hwwide⟩ := hall w (List.mem_cons_self _ _)
    unfold wrapLoop
    simp only []
    rw [if_neg (by simp)]
    simp only [List.nil_append]
    rw [wrapLoop_wide k mw x lh hk ws w y ⟨hwne, hwchars, hwwide⟩
      (fun u hu => hall u (List.mem_cons_of_mem _ hu))]
    simp only [List.length_cons, Prod.mk.injEq]
    refine ⟨trivial, ?_⟩
    push_cast
    ring
  · intro measure x y mw lh
    unfold renderWrappedText
    have hsp : jsSplitSpace ([] : Str) = [[]] := rfl
    rw [hsp]
    unfold wrapLoop
    simp only [List.nil_append]
    rw [if_neg (by simp)]
    unfold wrapLoop
    rw [if_neg (by simp [jsTrim, jsTrimStart, jsTrimEnd, isJsWhitespace])]

/-- Witness for `c8_theorem` on the string "aaaa bbbb" with unit-width
characters and maximum line width 6. -/
theorem c8_witness :
    ((0:ℚ) ≤ 1 ∧ ∀ w ∈ jsSplitSpace ("aaaa bbbb".data),
      w ≠ [] ∧ (∀ c ∈ w, isJsWhitespace c = false) ∧ (6:ℚ) / 2 < 1 * (w.length : ℚ)) ∧
    renderWrappedText (fun s => 1 * (s.length : ℚ)) ("aaaa bbbb".data) 0 0 6 10 =
      (expectedLines 0 10 (jsSplitSpace ("aaaa bbbb".data)) 0,
       0 + ((jsSplitSpace ("aaaa bbbb".data)).length : ℚ) * 10) := by
  have hall : ∀ w ∈ jsSplitSpace ("aaaa bbbb".data),
      w ≠ [] ∧ (∀ c ∈ w, isJsWhitespace c = false) ∧ (6:ℚ) / 2 < 1 * (w.length : ℚ) := by
    intro w hw
    have hsp : jsSplitSpace ("aaaa bbbb".data)
        = [['a','a','a','a'], ['b','b','b','b']] := by decide
    rw [hsp] at hw
    simp only [List.mem_cons, List.not_mem_nil, or_false] at hw
    rcases hw with rfl | rfl
    · exact ⟨by decide, by decide, by norm_num⟩
    · exact ⟨by decide, by decide, by norm_num⟩
  exact ⟨⟨by norm_num, hall⟩,
    c8_theorem.1 1 6 0 0 10 ("aaaa bbbb".data) (by norm_num) hall⟩

/-- Canvas drawing commands issued by the compositor, in order. -/
inductive DrawCmd where
  | save
  | restore
  | setFillStyle (color : String)
  | fillRect (x y w h : ℚ)
  | drawImage (x y w h : ℚ)
  | translate (x y : ℚ)
  | setGlobalAlpha (a : ℚ)
  | setFont (weight : ℕ) (sizePx : ℤ)
  | setTextBaselineTop
  | fillText (text : Str) (x y : ℚ)
deriving DecidableEq, Repr

/-- JavaScript `s || ""` on a string: the empty string is falsy. -/
def jsOrEmpty (s : Str) : Str := if s = [] then [] else s

/-- Vertical anchor `baseY` (source lines 136-141), with
`verticalPadding = canvas.height * 0.12`. -/
def baseYOf (ch : ℚ) : SlideAlignment → ℚ
  | SlideAlignment.center => ch / 2 - ch * (12/100)
  | SlideAlignment.top => ch * (12/100)
  | SlideAlignment.bottom => ch - ch * (12/100) * 3

/-- Image drawing block (source lines 110-129): aspect-fill centered, then a
35%-opacity black scrim over the whole frame. -/
def imageCmds (cw ch : ℚ) : Option ImageEl → List DrawCmd
  | none => []
  | some image =>
    let imageAspect := image.width / image.height
    let canvasAspect := cw / ch
    let renderWidth := if imageAspect > canvasAspect then imageAspect * ch else cw
    let renderHeight := if imageAspect > canvasAspect then ch else cw / imageAspect
    let offsetX := (cw - renderWidth) / 2
    let offsetY := (ch - renderHeight) / 2
    [DrawCmd.drawImage offsetX offsetY renderWidth renderHeight,
     DrawCmd.setFillStyle "rgba(0, 0, 0, 0.35)",
     DrawCmd.fillRect 0 0 cw ch]

/-- The accent bar rectangle (source lines 144-156):
`fillRect(canvas.width * 0.075, baseY, Math.max(accentWidth, 1), accentHeight)`
with `accentWidth = canvas.width * 0.28 * eased` and
`accentHeight = canvas.height * 0.0075`. -/
def accentBarCmd (cw ch : ℚ) (slide : Slide) (eased : ℚ) : DrawCmd :=
  DrawCmd.fillRect (cw * (75/1000)) (baseYOf ch slide.alignment)
    (max (cw * (28/100) * eased) 1) (ch * (75/10000))

/-- The body of `drawSlideFrame` (source lines 106-183) after the progress
value has been clamped: background fill, optional image with scrim, then the
translated and faded text block (accent bar, wrapped title, wrapped
subtitle). -/
def drawFrameAt (measure : Str → ℚ) (cw ch : ℚ) (slide : Slide)
    (image : Option ImageEl) (tc : ℚ) : List DrawCmd :=
  let eased := easeInOutCubic tc
  let textAreaWidth := cw * (85/100)
  let accentHeight := ch * (75/10000)
  let baseY := baseYOf ch slide.alignment
  let translation := (1 - eased) * 60
  let currentY := baseY + accentHeight + ch * (2/100)
  let titleR := renderWrappedText measure (jsOrEmpty slide.title)
    (cw * (75/1000)) currentY textAreaWidth (ch * (75/1000))
  let subR := renderWrappedText measure (jsOrEmpty slide.subtitle)
    (cw * (75/1000)) (titleR.2 + ch * (35/1000)) textAreaWidth (ch * (5/100))
  [DrawCmd.save, DrawCmd.setFillStyle slide.backgroundColor, DrawCmd.fillRect 0 0 cw ch]
  ++ imageCmds cw ch image
  ++ [DrawCmd.save, DrawCmd.translate 0 translation,
      DrawCmd.setGlobalAlpha (8/10 + 2/10 * eased),
      DrawCmd.setFillStyle slide.accentColor,
      accentBarCmd cw ch slide eased,
      DrawCmd.setFillStyle slide.textColor,
      DrawCmd.setFont 700 ⌊ch * (7/100)⌋,
      DrawCmd.setTextBaselineTop]
  ++ titleR.1.map (fun c => DrawCmd.fillText c.1 c.2.1 c.2.2)
  ++ [DrawCmd.setFont 400 ⌊ch * (35/1000)⌋]
  ++ subR.1.map (fun c => DrawCmd.fillText c.1 c.2.1 c.2.2)
  ++ [DrawCmd.restore, DrawCmd.restore]

/-- `drawSlideFrame` from the source: the progress input is clamped to
`[0, 1]` (line 131: `easeInOutCubic(Math.min(Math.max(frameProgress, 0), 1))`)
before the frame body is drawn. -/
def drawSlideFrame (measure : Str → ℚ) (cw ch : ℚ) (slide : Slide)
    (image : Option ImageEl) (frameProgress : ℚ) : List DrawCmd :=
  drawFrameAt measure cw ch slide image (min (max frameProgress 0) 1)

/-- A concrete slide used by the closed witnesses and counterexamples. -/
def sampleSlide : Slide where
  id := "s1"
  title := "T".data
  subtitle := "s".data
  backgroundColor := "#111827"
  textColor := "#f9fafb"
  accentColor := "#f97316"
  duration := 3
  imageDataUrl := none
  alignment := SlideAlignment.center

/-- C3 (amended): the compositor always draws the accent bar at the 7.5%
horizontal margin and `baseY`, with width `max(canvasWidth * 0.28 * eased, 1)`
— never less than one pixel. -/
theorem c3_theorem :
    ∀ (measure : Str → ℚ) (cw ch : ℚ) (slide : Slide) (image : Option ImageEl) (t : ℚ),
      accentBarCmd cw ch slide (easeInOutCubic (min (max t 0) 1)) ∈
        drawSlideFrame measure cw ch slide image t ∧
      accentBarCmd cw ch slide (easeInOutCubic (min (max t 0) 1)) =
        DrawCmd.fillRect (cw * (75/1000)) (baseYOf ch slide.alignment)
          (max (cw * (28/100) * easeInOutCubic (min (max t 0) 1)) 1)
          (ch * (75/10000)) := by
  intro measure cw ch slide image t
  refine ⟨?_, rfl⟩
  simp [drawSlideFrame, drawFrameAt, List.mem_append]

/-- C3 counterexample: at progress 0 the accent bar is drawn with width 1,
not width `canvasWidth * 0.28 * eased = 0` as the claim states. -/
theorem c3_counterexample :
    accentBarCmd 720 1280 sampleSlide (easeInOutCubic (min (max (0:ℚ) 0) 1)) ∈
      drawSlideFrame (fun s => (s.length : ℚ)) 720 1280 sampleSlide none 0 ∧
    accentBarCmd 720 1280 sampleSlide (easeInOutCubic (min (max (0:ℚ) 0) 1)) ≠
      DrawCmd.fillRect (720 * (75/1000)) (baseYOf 1280 sampleSlide.alignment)
        (720 * (28/100) * easeInOutCubic (min (max (0:ℚ) 0) 1))
        (1280 * (75/10000)) := by
  constructor
  · simp [drawSlideFrame, drawFrameAt, List.mem_append]
  · intro h
    have hw := congrArg (fun c => match c with
      | DrawCmd.fillRect _ _ w _ => w
      | _ => 0) h
    simp only [] at hw
    rw [show easeInOutCubic (min (max (0:ℚ) 0) 1) = 0 by
      norm_num [easeInOutCubic]] at hw
    norm_num [accentBarCmd] at hw

/-- C7: out-of-range progress values are clamped before easing, so the frame
drawn for `t < 0` is identical to the frame for 0, and the frame for `t > 1`
is identical to the frame for 1. -/
theorem c7_theorem :
    ∀ (measure : Str → ℚ) (cw ch : ℚ) (slide : Slide) (image : Option ImageEl) (t : ℚ),
      (t < 0 → drawSlideFrame measure cw ch slide image t =
        drawSlideFrame measure cw ch slide image 0) ∧
      (1 < t → drawSlideFrame measure cw ch slide image t =
        drawSlideFrame measure cw ch slide image 1) := by
  intro measure cw ch slide image t
  constructor
  · intro ht
    unfold drawSlideFrame
    congr 1
    rw [max_eq_right ht.le]
    norm_num
  · intro ht
    unfold drawSlideFrame
    congr 1
    rw [max_eq_left (le_of_lt (lt_trans zero_lt_one ht)), min_eq_right ht.le]
    norm_num

/-- Witness for `c7_theorem`: the frames for progress -1 and 2 equal the
frames for 0 and 1 on a concrete slide. -/
theorem c7_witness :
    ((-1 : ℚ) < 0 ∧
      drawSlideFrame (fun s => (s.length : ℚ)) 720 1280 sampleSlide none (-1) =
        drawSlideFrame (fun s => (s.length : ℚ)) 720 1280 sampleSlide none 0) ∧
    ((1 : ℚ) < 2 ∧
      drawSlideFrame (fun s => (s.length : ℚ)) 720 1280 sampleSlide none 2 =
        drawSlideFrame (fun s => (s.length : ℚ)) 720 1280 sampleSlide none 1) :=
  ⟨⟨by norm_num,
    (c7_theorem (fun s => (s.length : ℚ)) 720 1280 sampleSlide none (-1)).1 (by norm_num)⟩,
   ⟨by norm_num,
    (c7_theorem (fun s => (s.length : ℚ)) 720 1280 sampleSlide none 2).2 (by norm_num)⟩⟩

/-- `loadImage` from the source: no reference resolves to `null`; otherwise
the host decoding capability either yields a bitmap (`onload`) or fails
(`onerror`), in which case the promise resolves to `null`. The promise never
rejects. -/
def loadImage (decode : String → Option ImageEl) : Option String → Option ImageEl
  | none => none
  | some dataUrl => decode dataUrl

/-- The prefetch step (source line 253):
`Promise.all(slides.map((slide) => loadImage(slide.imageDataUrl)))`. -/
def prefetchImages (decode : String → Option ImageEl) (slides : List Slide) :
    List (Option ImageEl) :=
  slides.map (fun slide => loadImage decode slide.imageDataUrl)

/-- C9: the prefetch resolves every slide's optional image independently:
the result is aligned 1:1 with the slide order, entry `i` depends only on
slide `i`'s reference, an absent reference yields `null`, and a decode
failure yields `null` for that slide only (the batch always completes). -/
theorem c9_theorem :
    ∀ (decode : String → Option ImageEl) (slides : List Slide) (i : ℕ),
      (prefetchImages decode slides).length = slides.length ∧
      (prefetchImages decode slides)[i]? =
        (slides[i]?).map (fun slide => loadImage decode slide.imageDataUrl) ∧
      loadImage decode none = none := by
  intro decode slides i
  refine ⟨by simp [prefetchImages], ?_, rfl⟩
  simp [prefetchImages]

/-- The `Blob` value returned by a successful export (source line 299):
`new Blob(chunks, { type: recorder.mimeType || "video/webm" })`. -/
def exportBlob (chunks : List String) (recorderMimeType : String) :
    List String × String :=
  (chunks, if recorderMimeType = "" then "video/webm" else recorderMimeType)

/-- C10: the returned buffer is tagged with the recorder's negotiated MIME
type, falling back to "video/webm" when the recorder reports an empty type;
the tag is never the empty string. -/
theorem c10_theorem :
    ∀ (chunks : List String) (m : String),
      (m ≠ "" → (exportBlob chunks m).2 = m) ∧
      (exportBlob chunks "").2 = "video/webm" ∧
      (exportBlob chunks m).2 ≠ "" := by
  intro chunks m
  refine ⟨?_, rfl, ?_⟩
  · intro h
    simp [exportBlob, h]
  · unfold exportBlob
    split_ifs with h
    · simp
    · simpa using h

/-- Witness for `c10_theorem` at a concrete non-empty MIME type. -/
theorem c10_witness :
    ("video/webm;codecs=vp9" ≠ "") ∧
    (exportBlob [] "video/webm;codecs=vp9").2 = "video/webm;codecs=vp9" :=
  ⟨by decide, (c10_theorem [] "video/webm;codecs=vp9").1 (by decide)⟩

/-- Errors the export orchestrator can raise, from the spec's taxonomy. -/
inductive ExportError where
  | capabilityError
  | validationError
  | resourceError
deriving DecidableEq, Repr

/-- Observable steps of `exportSlidesToVideo` before and during a run. -/
inductive ExportEvent where
  | probeRecorderAvailability
  | createSurface
  | probeCodec (mime : String)
  | renderFrame (slideIdx frameIdx : ℕ)
  | stopRecorder
deriving DecidableEq, Repr

/-- The codec preference list (source lines 215-219). -/
def mimeCandidates : List String :=
  ["video/webm;codecs=vp9", "video/webm;codecs=vp8", "video/webm"]

/-- Codec negotiation (source lines 222-235): candidates are probed in order
with `MediaRecorder.isTypeSupported` until the first supported one. -/
def negotiateEvents (supported : String → Bool) : List String → List ExportEvent
  | [] => []
  | m :: ms =>
    ExportEvent.probeCodec m :: (if supported m then [] else negotiateEvents supported ms)

/-- The per-frame render events of the export loop (source lines 273-290). -/
def frameEvents (slides : List Slide) : List ExportEvent :=
  (slides.mapIdx fun i slide =>
    (List.range (frameCount slide.duration)).map (ExportEvent.renderFrame i)).flatten

/-- The ordered observable steps and outcome of `exportSlidesToVideo`
(source lines 196-297): `ensureMediaRecorder` runs first (capability check,
lines 185-194 and 200), then the empty-sequence validation (lines 202-204),
then canvas/context acquisition (lines 206-212), then codec negotiation,
then the render loop and the final stop. -/
def exportTrace (avail ctx : Bool) (supported : String → Bool) (slides : List Slide) :
    List ExportEvent × Option ExportError :=
  if avail = false then
    ([ExportEvent.probeRecorderAvailability], some ExportError.capabilityError)
  else if slides.length = 0 then
    ([ExportEvent.probeRecorderAvailability], some ExportError.validationError)
  else if ctx = false then
    ([ExportEvent.probeRecorderAvailability, ExportEvent.createSurface],
     some ExportError.resourceError)
  else
    ([ExportEvent.probeRecorderAvailability, ExportEvent.createSurface]
      ++ negotiateEvents supported mimeCandidates
      ++ frameEvents slides ++ [ExportEvent.stopRecorder], none)

/-- C1 (amended): with the recorder capability available, exporting an empty
slide sequence fails with the validation error before any frame is rendered,
before the capture surface is created and before any codec is probed — but
after the recorder-availability check, which always runs first. -/
theorem c1_theorem :
    ∀ (ctx : Bool) (supported : String → Bool),
      exportTrace true ctx supported [] =
        ([ExportEvent.probeRecorderAvailability], some ExportError.validationError) := by
  intro ctx supported
  simp [exportTrace]

/-- C1 counterexample: with the recorder capability absent, an empty export
fails with the capability error, not the validation error; and even when the
capability is present, the capability probe happens before the validation
failure. -/
theorem c1_counterexample :
    (exportTrace false true (fun _ => true) []).2 ≠ some ExportError.validationError ∧
    (exportTrace false true (fun _ => true) []).2 = some ExportError.capabilityError ∧
    ExportEvent.probeRecorderAvailability ∈ (exportTrace true true (fun _ => true) []).1 := by
  refine ⟨?_, rfl, ?_⟩
  · intro h
    simp [exportTrace] at h
  · simp [exportTrace]

/-- How the capture promise was settled (first settlement wins, as for a
JavaScript promise). -/
inductive Settled where
  | rejectedSink
  | resolved
deriving DecidableEq, Repr

/-- State of one export run: frames drawn by the loop, whether the recorder
is still running, and how the promise has settled (if it has). -/
structure RunState where
  framesDrawn : ℕ
  recorderRunning : Bool
  settled : Option Settled
deriving DecidableEq, Repr

/-- One iteration of the render loop (source lines 278-289) followed by its
pacing suspension point: the frame is drawn and captured; if the recorder's
error event is delivered at this suspension point it rejects the promise —
only if it is still pending — and does not interrupt the loop. -/
def runStep (errAt : Option ℕ) (st : RunState) (i : ℕ) : RunState :=
  let st1 : RunState := { st with framesDrawn := st.framesDrawn + 1 }
  if errAt = some i ∧ st1.settled = none then
    { st1 with settled := some Settled.rejectedSink }
  else st1

/-- One export run (source lines 255-297): the recorder starts, the loop
draws every frame of `totalFrames` with an error event optionally delivered
at suspension point `errAt`, then the loop calls `recorder.stop()` and the
stop event resolves the promise if it is still pending. -/
def runCapture (totalFrames : ℕ) (errAt : Option ℕ) : RunState :=
  let st0 : RunState := ⟨0, true, none⟩
  let st1 := (List.range totalFrames).foldl (runStep errAt) st0
  let st2 : RunState := { st1 with recorderRunning := false }
  if st2.settled = none then { st2 with settled := some Settled.resolved } else st2

lemma runStep_settled_some (e : Option ℕ) (s : Settled) :
    ∀ (l : List ℕ) (st : RunState), st.settled = some s →
      (l.foldl (runStep e) st).settled = some s := by
  intro l
  induction l with
  | nil => intro st h; exact h
  | cons i l ih =>
    intro st h
    rw [List.foldl_cons]
    apply ih
    unfold runStep
    rw [if_neg (by simp [h])]
    exact h

lemma runStep_settled_none (k : ℕ) :
    ∀ (l : List ℕ) (st : RunState), (∀ i ∈ l, i ≠ k) → st.settled = none →
      (l.foldl (runStep (some k)) st).settled = none := by
  intro l
  induction l with
  | nil => intro st _ h; exact h
  | cons i l ih =>
    intro st hne h
    rw [List.foldl_cons]
    apply ih _ (fun j hj => hne j (List.mem_cons_of_mem _ hj))
    simp only [runStep]
    split_ifs with hcond
    · exact absurd (Option.some.inj hcond.1).symm (hne i (List.mem_cons_self _ _))
    · simpa using h

lemma foldl_range_rejected (k : ℕ) :
    ∀ (T : ℕ), k < T →
      ((List.range T).foldl (runStep (some k)) ⟨0, true, none⟩).settled =
        some Settled.rejectedSink := by
  intro T
  induction T with
  | zero => intro h; exact absurd h (Nat.not_lt_zero k)
  | succ n ih =>
    intro h
    rw [List.range_succ, List.foldl_append]
    rcases Nat.lt_succ_iff_lt_or_eq.mp h with h' | h'
    · exact runStep_settled_some (some k) Settled.rejectedSink [n] _ (ih h')
    · subst h'
      have hnone : ((List.range k).foldl (runStep (some k)) ⟨0, true, none⟩).settled = none :=
        runStep_settled_none k (List.range k) _
          (fun i hi => Nat.ne_of_lt (List.mem_range.mp hi)) rfl
      rw [List.foldl_cons, List.foldl_nil]
      simp only [runStep]
      split_ifs with hcond
      · rfl
      · exact absurd ⟨trivial, by simpa using hnone⟩ hcond

lemma foldl_framesDrawn (e : Option ℕ) :
    ∀ (l : List ℕ) (st : RunState),
      (l.foldl (runStep e) st).framesDrawn = st.framesDrawn + l.length := by
  intro l
  induction l with
  | nil => intro st; simp
  | cons i l ih =>
    intro st
    rw [List.foldl_cons, ih]
    simp only [runStep]
    split_ifs <;> simp <;> omega

/-- C4: when the sink reports an error event at any suspension point of a
started run, the run settles as rejected, the render loop still completes
all frames, and the recorder is stopped at the end — it is never left
running after a reported failure. -/
theorem c4_theorem :
    ∀ (totalFrames k : ℕ), k < totalFrames →
      (runCapture totalFrames (some k)).settled = some Settled.rejectedSink ∧
      (runCapture totalFrames (some k)).recorderRunning = false ∧
      (runCapture totalFrames (some k)).framesDrawn = totalFrames := by
  intro T k hk
  have hrej := foldl_range_rejected k T hk
  have hfr := foldl_framesDrawn (some k) (List.range T) ⟨0, true, none⟩
  unfold runCapture
  rw [if_neg (by simp [hrej])]
  refine ⟨by simp [hrej], rfl, ?_⟩
  simp [hfr]

/-- Witness for `c4_theorem`: an error delivered after the first frame of a
two-frame run. -/
theorem c4_witness :
    0 < 2 ∧
    (runCapture 2 (some 0)).settled = some Settled.rejectedSink ∧
    (runCapture 2 (some 0)).recorderRunning = false ∧
    (runCapture 2 (some 0)).framesDrawn = 2 :=
  ⟨by decide, c4_theorem 2 0 (by decide)⟩

/-- Total frame count computed up front (source lines 241-244):
`slides.reduce((acc, slide) => acc + Math.max(1, Math.round(slide.duration * FPS)), 0)`. -/
def totalFrames (slides : List Slide) : ℕ :=
  slides.foldl (fun acc slide => acc + frameCount slide.duration) 0

lemma totalFrames_foldl_acc :
    ∀ (l : List Slide) (c : ℕ),
      l.foldl (fun acc slide => acc + frameCount slide.duration) c =
        c + l.foldl (fun acc slide => acc + frameCount slide.duration) 0 := by
  intro l
  induction l with
  | nil => intro c; simp
  | cons s l ih =>
    intro c
    rw [List.foldl_cons, List.foldl_cons, ih (c + frameCount s.duration),
      ih (0 + frameCount s.duration)]
    omega

lemma totalFrames_cons (s : Slide) (l : List Slide) :
    totalFrames (s :: l) = frameCount s.duration + totalFrames l := by
  unfold totalFrames
  rw [List.foldl_cons, totalFrames_foldl_acc]
  omega

/-- The values passed to `onProgress` by the export loop (source lines
286-287): for each frame, `capturedFrames` is incremented and then
`capturedFrames / totalFrames` is reported. -/
def progressValues (total : ℕ) : List Slide → ℕ → List ℚ
  | [], _ => []
  | slide :: rest, captured =>
    ((List.range (frameCount slide.duration)).map
      fun f => ((captured + f + 1 : ℕ) : ℚ) / (total : ℚ))
    ++ progressValues total rest (captured + frameCount slide.duration)

/-- The full sequence of progress callbacks of one export run. -/
def progressSeq (slides : List Slide) : List ℚ :=
  progressValues (totalFrames slides) slides 0

lemma progressValues_eq :
    ∀ (l : List Slide) (T c : ℕ),
      progressValues T l c =
        (List.range (totalFrames l)).map (fun i => ((c + i + 1 : ℕ) : ℚ) / (T : ℚ)) := by
  intro l
  induction l with
  | nil => intro T c; simp [progressValues, totalFrames]
  | cons s rest ih =>
    intro T c
    rw [show progressValues T (s :: rest) c =
      ((List.range (frameCount s.duration)).map
        fun f => ((c + f + 1 : ℕ) : ℚ) / (T : ℚ))
      ++ progressValues T rest (c + frameCount s.duration) from rfl]
    rw [ih, totalFrames_cons, List.range_add, List.map_append, List.map_map]
    refine congrArg _ ?_
    refine List.map_congr_left ?_
    intro i hi
    simp only [Function.comp_apply]
    congr 2
    omega

lemma one_le_totalFrames (slides : List Slide) (h : slides ≠ []) :
    1 ≤ totalFrames slides := by
  cases slides with
  | nil => exact absurd rfl h
  | cons s l =>
    rw [totalFrames_cons]
    have := one_le_frameCount s.duration
    omega

/-- C5: across a full export run with at least one slide, the progress
callback fires exactly once per rendered frame, the reported values are
monotonically non-decreasing, and the last reported value is exactly 1. -/
theorem c5_theorem :
    ∀ (slides : List Slide), slides ≠ [] →
      (progressSeq slides).length = totalFrames slides ∧
      (progressSeq slides).Pairwise (· ≤ ·) ∧
      (progressSeq slides).getLast? = some 1 := by
  intro slides hne
  have hT := one_le_totalFrames slides hne
  have hT0 : (0 : ℚ) < (totalFrames slides : ℚ) := by exact_mod_cast hT
  unfold progressSeq
  rw [progressValues_eq]
  refine ⟨by simp, ?_, ?_⟩
  · refine List.Pairwise.map _ ?_ (List.pairwise_lt_range _)
    intro a b hab
    have hcast : ((0 + a + 1 : ℕ) : ℚ) ≤ ((0 + b + 1 : ℕ) : ℚ) := by
      exact_mod_cast (by omega : 0 + a + 1 ≤ 0 + b + 1)
    exact (div_le_div_iff_of_pos_right hT0).mpr hcast
  · obtain ⟨m, hm⟩ : ∃ m, totalFrames slides = m + 1 := ⟨totalFrames slides - 1, by omega⟩
    rw [hm, List.range_succ, List.map_append, List.map_cons, List.map_nil,
      List.getLast?_concat]
    congr 1
    have hne0 : ((m : ℚ) + 1) ≠ 0 := by positivity
    push_cast
    rw [show (0:ℚ) + (m:ℚ) + 1 = (m:ℚ) + 1 by ring]
    exact div_self hne0

/-- Witness for `c5_theorem` on a one-slide list. -/
theorem c5_witness :
    ([sampleSlide] ≠ []) ∧
    ((progressSeq [sampleSlide]).length = totalFrames [sampleSlide] ∧
      (progressSeq [sampleSlide]).Pairwise (· ≤ ·) ∧
      (progressSeq [sampleSlide]).getLast? = some 1) :=
  ⟨by simp, c5_theorem [sampleSlide] (by simp)⟩
